import Mathlib

/-!
Verification development for the Charter-driven task compiler, bounded-retry
execution engine, and gated freeze of this repository.

The definitions below are a shallow embedding of the Python sources:

* `compile_tasks` embeds `planner/planner.py` (`compile_tasks`).
* `implFor` / `runImpl` / `runTasksFrom` embed `tools/ochestrator.py`
  (`run_tasks` and its bounded impl retry loop).
* `matchDefAt` / `findDefs` / `discover_public_apis` / `progressive_freeze` /
  `oracleUpdateApis` embed `tools/oracle.py` (the regex-based public-API
  discovery, fingerprint serialization and the `--update-apis` entry point).

External collaborators (the LLM generation provider, the shell running the
test commands, the filesystem) are modelled by explicit environment records
whose fields carry the integer statuses / response shapes those collaborators
would produce; the control flow acting on them is translated line by line.
-/

namespace Spec2Proof

/-! ## Planner: `planner/planner.py` -/

/-- Detail payload of a task. The Python code stores a small dict; the planner
only ever constructs the four shapes below (`{}`, `{"mode": m}`,
`{"types": ts}`, `{"gates": gs}`), which we represent as constructors. -/
inductive Detail where
  | empty : Detail
  | mode (m : String) : Detail
  | types (ts : List String) : Detail
  | gates (gs : List String) : Detail
deriving DecidableEq, Repr

/-- Embedding of the `Task` dataclass of `planner/planner.py`. -/
structure Task where
  id : String
  kind : String
  target : String
  deps : List String := []
  detail : Detail := .empty
deriving DecidableEq, Repr

/-- The slice of the Charter that `compile_tasks` reads:
`meta.repo_layout.src_dir`, the ordered `interfaces.apis` mapping
(api name to the optional `module` entry of its config; `none` models a
missing key and `some ""` an empty value, both falsy in Python), and
`governance.freeze_after`. -/
structure Charter where
  srcDir : String := "src"
  apis : List (String × Option String) := []
  freezeAfter : List String := []

/-- Loop body of step 2 of `compile_tasks`: an API missing a module path
(`if not module: continue`) contributes nothing, otherwise an `impl` task and
a `test` task are appended. -/
def apiTasks (p : String × Option String) : List Task :=
  match p.2 with
  | none => []
  | some module =>
    if module = "" then []
    else
      [ { id := "impl:" ++ p.1, kind := "impl", target := module,
          deps := ["layout:ensure"], detail := .mode "template" },
        { id := "test:" ++ p.1, kind := "test", target := module,
          deps := ["impl:" ++ p.1], detail := .types ["unit", "property"] } ]

/-- Embedding of `compile_tasks` (`planner/planner.py`, lines 29-53). -/
def compile_tasks (ch : Charter) : List Task :=
  { id := "layout:ensure", kind := "scaffold", target := ch.srcDir }
    :: (ch.apis.flatMap apiTasks
        ++ [ { id := "freeze:checkpoint", kind := "freeze", target := "apis",
               detail := .gates ch.freezeAfter } ])

/-- Whether an API entry survives the `if not module: continue` guard. -/
def apiOk (p : String × Option String) : Bool :=
  match p.2 with
  | none => false
  | some module => !(module = "")

/-- Example charter used by several concrete counterexamples: one API
`greeter` with module `pkg.greeter`, gates `lint` and `typecheck`. -/
def exCharter : Charter :=
  { srcDir := "src"
    apis := [("greeter", some "pkg.greeter")]
    freezeAfter := ["lint", "typecheck"] }

example :
    compile_tasks exCharter =
      [ { id := "layout:ensure", kind := "scaffold", target := "src" },
        { id := "impl:greeter", kind := "impl", target := "pkg.greeter",
          deps := ["layout:ensure"], detail := .mode "template" },
        { id := "test:greeter", kind := "test", target := "pkg.greeter",
          deps := ["impl:greeter"], detail := .types ["unit", "property"] },
        { id := "freeze:checkpoint", kind := "freeze", target := "apis",
          detail := .gates ["lint", "typecheck"] } ] := by
  decide

/-- The impl/test pair the spec describes for one API that has a module path
(the module read out of the optional config entry). -/
def claimedApiPair (p : String × Option String) : List Task :=
  [ { id := "impl:" ++ p.1, kind := "impl", target := p.2.getD "",
      deps := ["layout:ensure"], detail := .mode "template" },
    { id := "test:" ++ p.1, kind := "test", target := p.2.getD "",
      deps := ["impl:" ++ p.1], detail := .types ["unit", "property"] } ]

lemma apiTasks_of_not_ok (p : String × Option String) (h : apiOk p = false) :
    apiTasks p = [] := by
  rcases p with ⟨n, m⟩
  cases m with
  | none => rfl
  | some s =>
    have hs : s = "" := by simpa [apiOk] using h
    simp [apiTasks, hs]

lemma apiTasks_of_ok (p : String × Option String) (h : apiOk p = true) :
    apiTasks p = claimedApiPair p := by
  rcases p with ⟨n, m⟩
  cases m with
  | none => simp [apiOk] at h
  | some s =>
    have hs : ¬ s = "" := by simpa [apiOk] using h
    simp [apiTasks, claimedApiPair, hs]

lemma flatMap_apiTasks_filter (l : List (String × Option String)) :
    l.flatMap apiTasks = (l.filter apiOk).flatMap apiTasks := by
  induction l with
  | nil => rfl
  | cons p t ih =>
    by_cases h : apiOk p = true
    · simp [List.filter_cons, h, ih]
    · have h' : apiOk p = false := by revert h; cases apiOk p <;> simp
      simp [List.filter_cons, h', apiTasks_of_not_ok p h', ih]

lemma flatMap_filter_pair (l : List (String × Option String)) :
    (l.filter apiOk).flatMap apiTasks = (l.filter apiOk).flatMap claimedApiPair := by
  induction l with
  | nil => rfl
  | cons p t ih =>
    by_cases h : apiOk p = true
    · simp [List.filter_cons, h, ih, apiTasks_of_ok p h]
    · have h' : apiOk p = false := by revert h; cases apiOk p <;> simp
      simp [List.filter_cons, h', ih]

lemma length_flatMap_pair (l : List (String × Option String)) :
    (l.flatMap claimedApiPair).length = 2 * l.length := by
  induction l with
  | nil => rfl
  | cons p t ih => simp [claimedApiPair, ih]; omega

lemma compile_tasks_shape (ch : Charter) :
    compile_tasks ch =
      { id := "layout:ensure", kind := "scaffold", target := ch.srcDir, deps := [] }
        :: ((ch.apis.filter apiOk).flatMap claimedApiPair
            ++ [ { id := "freeze:checkpoint", kind := "freeze", target := "apis",
                   detail := .gates ch.freezeAfter } ]) := by
  unfold compile_tasks
  rw [flatMap_apiTasks_filter, flatMap_filter_pair]

/-- Claim C4: for every Charter, the compiled task list is exactly the
scaffold task `layout:ensure` (no deps) first, then, per API that has a
non-empty module path and in the Charter's enumeration order, the
`impl:<api>` task (depending on the layout task) followed by the
`test:<api>` task (depending on the impl task), then the freeze task; an API
missing a module path contributes no tasks, and the list has
`1 + 2N + 1` entries for `N` surviving APIs. -/
theorem C4_compile_shape (ch : Charter) :
    compile_tasks ch =
      { id := "layout:ensure", kind := "scaffold", target := ch.srcDir, deps := [] }
        :: ((ch.apis.filter apiOk).flatMap claimedApiPair
            ++ [ { id := "freeze:checkpoint", kind := "freeze", target := "apis",
                   detail := .gates ch.freezeAfter } ])
    ∧ (compile_tasks ch).length = 1 + 2 * (ch.apis.filter apiOk).length + 1 := by
  refine ⟨compile_tasks_shape ch, ?_⟩
  rw [compile_tasks_shape ch]
  simp only [List.length_cons, List.length_append, length_flatMap_pair,
    List.length_singleton, List.length_nil]
  omega

lemma filter_freeze_apiTasks (l : List (String × Option String)) :
    (l.flatMap apiTasks).filter (fun t => t.kind == "freeze") = [] := by
  induction l with
  | nil => rfl
  | cons p t ih =>
    rcases p with ⟨n, m⟩
    cases m with
    | none => simpa [apiTasks] using ih
    | some s =>
      by_cases hs : s = "" <;>
        simp [apiTasks, hs, List.filter_append, List.filter_cons, ih]

/-- Claim C1, amended: the compiled task list contains exactly one
freeze-kind task; its id is `freeze:checkpoint` and its detail carries the
Charter's configured gate names, but its dependency list is empty (it does
not reference the `test:*` task ids). -/
theorem C1_freeze_task_amended (ch : Charter) :
    (compile_tasks ch).filter (fun t => t.kind == "freeze")
      = [ { id := "freeze:checkpoint", kind := "freeze", target := "apis",
            deps := [], detail := .gates ch.freezeAfter } ] := by
  unfold compile_tasks
  simp [List.filter_cons, List.filter_append, filter_freeze_apiTasks]

/-- Claim C1, counterexample: for the one-API example Charter the unique
freeze task has the empty dependency list, while the set of emitted `test:*`
ids is `{test:greeter}`; the claimed equality of the two sets fails. -/
theorem C1_freeze_deps_counterexample :
    ((compile_tasks exCharter).filter (fun t => t.kind == "freeze")).map Task.deps
      = [[]]
    ∧ ((compile_tasks exCharter).filter (fun t => t.kind == "test")).map Task.id
      = ["test:greeter"]
    ∧ ([] : List String) ≠ ["test:greeter"] := by
  refine ⟨by decide, by decide, by decide⟩

/-- Checks, walking the list front to back with the accumulator `seen` of
ids already emitted, that every task's deps are contained in `seen`. -/
def seenOK (seen : List String) : List Task → Bool
  | [] => true
  | t :: ts => (t.deps.all fun d => decide (d ∈ seen)) && seenOK (t.id :: seen) ts

/-- Positional form of the planner's dependency invariant: every id in any
task's deps names a task at a strictly earlier index. -/
def depsResolveEarlier (ts : List Task) : Prop :=
  ∀ i : Fin ts.length, ∀ d ∈ (ts.get i).deps,
    ∃ j : Fin ts.length, j.val < i.val ∧ (ts.get j).id = d

lemma seenOK_spec :
    ∀ (ts : List Task) (seen : List String), seenOK seen ts = true →
      ∀ i : Fin ts.length, ∀ d ∈ (ts.get i).deps,
        d ∈ seen ∨ ∃ j : Fin ts.length, j.val < i.val ∧ (ts.get j).id = d := by
  intro ts
  induction ts with
  | nil =>
    intro seen _ i
    exact absurd i.isLt (by simp)
  | cons t ts ih =>
    intro seen h i d hd
    rw [seenOK, Bool.and_eq_true, List.all_eq_true] at h
    obtain ⟨h1, h2⟩ := h
    match i, hd with
    | ⟨0, _⟩, hd =>
      exact Or.inl (of_decide_eq_true (h1 d hd))
    | ⟨k + 1, hk⟩, hd =>
      have hk' : k < ts.length := Nat.lt_of_succ_lt_succ hk
      have hres := ih (t.id :: seen) h2 ⟨k, hk'⟩ d hd
      rcases hres with hmem | ⟨j, hj, hid⟩
      · rcases List.mem_cons.mp hmem with heq | hseen
        · exact Or.inr ⟨⟨0, Nat.succ_pos _⟩, Nat.succ_pos _, heq.symm⟩
        · exact Or.inl hseen
      · exact Or.inr ⟨⟨j.val + 1, Nat.succ_lt_succ j.isLt⟩,
          Nat.succ_lt_succ hj, hid⟩

lemma seenOK_apiTasks (tf : Task) (htf : tf.deps = []) :
    ∀ (l : List (String × Option String)) (seen : List String),
      "layout:ensure" ∈ seen →
      seenOK seen (l.flatMap apiTasks ++ [tf]) = true := by
  intro l
  induction l with
  | nil =>
    intro seen _
    simp [seenOK, htf]
  | cons p t ih =>
    intro seen hm
    rcases p with ⟨n, m⟩
    cases m with
    | none => simpa [apiTasks] using ih seen hm
    | some s =>
      by_cases hs : s = ""
      · simpa [apiTasks, hs] using ih seen hm
      · simp only [apiTasks, hs, if_false, List.flatMap_cons, List.cons_append,
          seenOK, List.all_cons, List.all_nil, Bool.and_true, Bool.and_eq_true,
          decide_eq_true_eq]
        refine ⟨hm, ⟨List.mem_cons_self _ _, ?_⟩⟩
        exact ih _ (by simp [hm])

lemma str_data_inj {a b : String} (h : a.data = b.data) : a = b := by
  cases a
  cases b
  exact congrArg String.mk (by simpa using h)

lemma impl_append_inj {a b : String} (h : "impl:" ++ a = "impl:" ++ b) :
    a = b := by
  have hd := congrArg String.data h
  rw [String.data_append, String.data_append] at hd
  exact str_data_inj (List.append_cancel_left hd)

lemma test_append_inj {a b : String} (h : "test:" ++ a = "test:" ++ b) :
    a = b := by
  have hd := congrArg String.data h
  rw [String.data_append, String.data_append] at hd
  exact str_data_inj (List.append_cancel_left hd)

lemma head_data_append_impl (a : String) :
    ("impl:" ++ a).data.head? = some 'i' := by
  rw [String.data_append]
  rfl

lemma head_data_append_test (a : String) :
    ("test:" ++ a).data.head? = some 't' := by
  rw [String.data_append]
  rfl

lemma impl_ne_test (a b : String) : "impl:" ++ a ≠ "test:" ++ b := by
  intro h
  have hh := congrArg (fun s => s.data.head?) h
  simp only [head_data_append_impl, head_data_append_test] at hh
  exact absurd hh (by decide)

lemma impl_ne_layout (a : String) : "impl:" ++ a ≠ "layout:ensure" := by
  intro h
  have hh := congrArg (fun s => s.data.head?) h
  simp only [head_data_append_impl] at hh
  exact absurd hh (by decide)

lemma test_ne_layout (a : String) : "test:" ++ a ≠ "layout:ensure" := by
  intro h
  have hh := congrArg (fun s => s.data.head?) h
  simp only [head_data_append_test] at hh
  exact absurd hh (by decide)

lemma impl_ne_freeze (a : String) : "impl:" ++ a ≠ "freeze:checkpoint" := by
  intro h
  have hh := congrArg (fun s => s.data.head?) h
  simp only [head_data_append_impl] at hh
  exact absurd hh (by decide)

lemma test_ne_freeze (a : String) : "test:" ++ a ≠ "freeze:checkpoint" := by
  intro h
  have hh := congrArg (fun s => s.data.head?) h
  simp only [head_data_append_test] at hh
  exact absurd hh (by decide)

lemma map_id_flatMap_pair (l : List (String × Option String)) :
    (l.flatMap claimedApiPair).map Task.id
      = (l.map Prod.fst).flatMap fun n => ["impl:" ++ n, "test:" ++ n] := by
  induction l with
  | nil => rfl
  | cons p t ih => simp [claimedApiPair, ih]

lemma pairIds_nodup :
    ∀ ns : List String, ns.Nodup →
      (ns.flatMap fun n => ["impl:" ++ n, "test:" ++ n]).Nodup := by
  intro ns
  induction ns with
  | nil => simp
  | cons a t ih =>
    intro h
    rw [List.nodup_cons] at h
    obtain ⟨ha, ht⟩ := h
    simp only [List.flatMap_cons, List.cons_append, List.nil_append]
    refine List.nodup_cons.mpr ⟨?_, List.nodup_cons.mpr ⟨?_, ih ht⟩⟩
    · intro hmem
      rcases List.mem_cons.mp hmem with heq | hmem'
      · exact impl_ne_test a a heq
      · rcases List.mem_flatMap.mp hmem' with ⟨b, hb, hbmem⟩
        rcases List.mem_cons.mp hbmem with heq | hbmem'
        · exact ha (impl_append_inj heq ▸ hb)
        · rcases List.mem_cons.mp hbmem' with heq | hemp
          · exact impl_ne_test a b heq
          · exact absurd hemp (List.not_mem_nil _)
    · intro hmem
      rcases List.mem_flatMap.mp hmem with ⟨b, hb, hbmem⟩
      rcases List.mem_cons.mp hbmem with heq | hbmem'
      · exact impl_ne_test b a heq.symm
      · rcases List.mem_cons.mp hbmem' with heq | hemp
        · exact ha (test_append_inj heq ▸ hb)
        · exact absurd hemp (List.not_mem_nil _)

lemma mem_pairIds {ns : List String} {x : String}
    (h : x ∈ ns.flatMap fun n => ["impl:" ++ n, "test:" ++ n]) :
    ∃ n ∈ ns, x = "impl:" ++ n ∨ x = "test:" ++ n := by
  rcases List.mem_flatMap.mp h with ⟨n, hn, hx⟩
  rcases List.mem_cons.mp hx with heq | hx'
  · exact ⟨n, hn, Or.inl heq⟩
  · rcases List.mem_cons.mp hx' with heq | hemp
    · exact ⟨n, hn, Or.inr heq⟩
    · exact absurd hemp (List.not_mem_nil _)

/-- Claim C9: in every compiled task list (api names are keys of a YAML
mapping, hence pairwise distinct), every id occurring in some task's deps
references a task at a strictly earlier position, and the task ids are
pairwise distinct. -/
theorem C9_plan_invariants (ch : Charter)
    (h : (ch.apis.map Prod.fst).Nodup) :
    depsResolveEarlier (compile_tasks ch)
    ∧ ((compile_tasks ch).map Task.id).Nodup := by
  constructor
  · have hOK : seenOK [] (compile_tasks ch) = true := by
      unfold compile_tasks
      rw [seenOK]
      simp only [List.all_nil, Bool.true_and]
      exact seenOK_apiTasks _ rfl ch.apis ["layout:ensure"]
        (List.mem_singleton.mpr rfl)
    intro i d hd
    rcases seenOK_spec _ [] hOK i d hd with hmem | hx
    · exact absurd hmem (List.not_mem_nil _)
    · exact hx
  · have hids : (compile_tasks ch).map Task.id
        = "layout:ensure"
            :: (((ch.apis.filter apiOk).map Prod.fst).flatMap
                  fun n => ["impl:" ++ n, "test:" ++ n])
              ++ ["freeze:checkpoint"] := by
      rw [compile_tasks_shape ch]
      simp [map_id_flatMap_pair]
    rw [hids, List.cons_append]
    have hnames : ((ch.apis.filter apiOk).map Prod.fst).Nodup := by
      refine List.Nodup.sublist ?_ h
      exact List.Sublist.map Prod.fst (List.filter_sublist _)
    have hpairs := pairIds_nodup _ hnames
    refine List.nodup_cons.mpr ⟨?_, ?_⟩
    · intro hmem
      rcases List.mem_append.mp hmem with hp | hf
      · rcases mem_pairIds hp with ⟨n, _, heq | heq⟩
        · exact impl_ne_layout n heq.symm
        · exact test_ne_layout n heq.symm
      · rcases List.mem_singleton.mp hf with heq
        exact absurd heq (by decide)
    · rw [List.nodup_append]
      refine ⟨hpairs, List.nodup_singleton _, ?_⟩
      intro x hx hxf
      rcases List.mem_singleton.mp hxf with rfl
      rcases mem_pairIds hx with ⟨n, _, heq | heq⟩
      · exact impl_ne_freeze n heq.symm
      · exact test_ne_freeze n heq.symm

/-- Concrete instantiation of `C9_plan_invariants` at the example Charter. -/
theorem C9_plan_invariants_witness :
    depsResolveEarlier (compile_tasks exCharter)
    ∧ ((compile_tasks exCharter).map Task.id).Nodup :=
  C9_plan_invariants exCharter (by decide)

/-! ## Orchestrator: `tools/ochestrator.py` (`run_tasks`) -/

/-- Outcome of one iteration of the impl retry loop, as seen from the
control flow: either `extract_code_block` found no tagged block in the LLM
response (`if not content`), or the block was written and the test runner
(`python tools/oracle.py --dynamic`) returned status `rc`. -/
inductive AttemptResult where
  | noBlock : AttemptResult
  | tested (rc : Nat) : AttemptResult

/-- Body of `for attempt in range(1, MAX_RETRIES + 2)` in `run_tasks`
(lines 182-216): `attempts` gives each attempt's outcome, `maxA` is
`MAX_RETRIES + 1` (the bound tested by `attempt >= (MAX_RETRIES + 1)`), and
the list holds the remaining values of `attempt`. The result pairs the
number of generation calls made with `some rc` when the loop returns `rc`
from `run_tasks` (aborting the run) and `none` when it breaks or ends
(continuing with the next task). -/
def implFor (attempts : Nat → AttemptResult) (maxA : Nat) :
    List Nat → Nat × Option Nat
  | [] => (0, none)
  | a :: rest =>
    match attempts a with
    | .noBlock => (1, some 1)
    | .tested rc =>
      if rc = 0 then (1, none)
      else if a ≥ maxA then (1, some rc)
      else
        match implFor attempts maxA rest with
        | (n, r) => (n + 1, r)

/-- One impl task with `MAX_RETRIES = mr`: the Python loop iterates
`attempt` over `range(1, mr + 2)`. -/
def runImpl (mr : Nat) (attempts : Nat → AttemptResult) : Nat × Option Nat :=
  implFor attempts (mr + 1) (List.range' 1 (mr + 1))

/-- Per-task collaborator outcomes: the impl loop's per-attempt results, the
status of `oracle.py --dynamic` for a test task, and the status of
`oracle.py --update-apis` for a freeze task (which `run_tasks` discards). -/
structure TaskEnv where
  attempts : Nat → AttemptResult := fun _ => .noBlock
  testRc : Nat := 0
  freezeRc : Nat := 0

/-- Observable collaborator invocations of `run_tasks`, in order. -/
inductive REvent where
  | scaffolded (target : String) : REvent
  | implAttempted (target : String) (genCalls : Nat) : REvent
  | dynamicTest (rc : Nat) : REvent
  | updateApis (rc : Nat) : REvent
  | unknownKind (kind : String) : REvent
deriving DecidableEq, Repr

/-- Embedding of `run_tasks` (`tools/ochestrator.py`, lines 165-229), with
each task paired with its collaborator outcomes. Returns the invocation
trace and the function's integer result: scaffold and freeze subprocess
statuses are discarded, an impl task aborts the run when its loop returns a
status, a test task aborts on non-zero status, unknown kinds are logged and
skipped, and falling off the list returns 0. -/
def runTasksFrom (mr : Nat) : List (Task × TaskEnv) → List REvent × Nat
  | [] => ([], 0)
  | (t, e) :: rest =>
    if t.kind = "scaffold" then
      let r := runTasksFrom mr rest
      (.scaffolded t.target :: r.1, r.2)
    else if t.kind = "impl" then
      match runImpl mr e.attempts with
      | (n, some rc) => ([.implAttempted t.target n], rc)
      | (n, none) =>
        let r := runTasksFrom mr rest
        (.implAttempted t.target n :: r.1, r.2)
    else if t.kind = "test" then
      if e.testRc ≠ 0 then ([.dynamicTest e.testRc], e.testRc)
      else
        let r := runTasksFrom mr rest
        (.dynamicTest e.testRc :: r.1, r.2)
    else if t.kind = "freeze" then
      let r := runTasksFrom mr rest
      (.updateApis e.freezeRc :: r.1, r.2)
    else
      let r := runTasksFrom mr rest
      (.unknownKind t.kind :: r.1, r.2)

lemma implFor_calls_le (attempts : Nat → AttemptResult) (maxA : Nat) :
    ∀ l : List Nat, (implFor attempts maxA l).1 ≤ l.length := by
  intro l
  induction l with
  | nil => simp [implFor]
  | cons a rest ih =>
    rw [implFor]
    cases attempts a with
    | noBlock => simp
    | tested rc =>
      by_cases h0 : rc = 0
      · simp [h0]
      · by_cases hge : a ≥ maxA
        · simp [h0, hge]
        · rcases hr : implFor attempts maxA rest with ⟨n, r⟩
          simp only [h0, if_false, hge, hr]
          have := ih
          rw [hr] at this
          simpa using Nat.succ_le_succ this

lemma implFor_snd_ne_zero (attempts : Nat → AttemptResult) (maxA : Nat) :
    ∀ (l : List Nat) (s : Nat), (implFor attempts maxA l).2 = some s → s ≠ 0 := by
  intro l
  induction l with
  | nil => simp [implFor]
  | cons a rest ih =>
    intro s
    rw [implFor]
    cases attempts a with
    | noBlock =>
      intro h
      simp at h
      omega
    | tested rc =>
      by_cases h0 : rc = 0
      · simp [h0]
      · by_cases hge : a ≥ maxA
        · intro h
          simp [h0, hge] at h
          omega
        · rcases hr : implFor attempts maxA rest with ⟨n, r⟩
          simp only [h0, if_false, hge, hr]
          intro h
          refine ih s ?_
          rw [hr]
          simpa using h

/-- Claim C3: with the default `MAX_RETRIES = 2`, an impl task whose test
runs return non-zero on attempts 1, 2 and 3 makes exactly 3 generation calls
and makes `run_tasks` return the third attempt's status; and for every
configured retry count the loop makes at most `1 + MAX_RETRIES` generation
calls. -/
theorem C3_retry_bound (attempts : Nat → AttemptResult) (rc : Nat → Nat)
    (h1 : attempts 1 = .tested (rc 1)) (h2 : attempts 2 = .tested (rc 2))
    (h3 : attempts 3 = .tested (rc 3)) (hnz : ∀ k, rc k ≠ 0) :
    runImpl 2 attempts = (3, some (rc 3))
    ∧ ∀ (mr : Nat) (a : Nat → AttemptResult), (runImpl mr a).1 ≤ 1 + mr := by
  constructor
  · have hrange : List.range' 1 3 = [1, 2, 3] := by decide
    rw [runImpl]
    norm_num
    rw [hrange]
    rw [implFor, h1]
    simp only [hnz 1, if_false, show ¬ (1 ≥ 3) by decide, if_false]
    rw [implFor, h2]
    simp only [hnz 2, if_false, show ¬ (2 ≥ 3) by decide, if_false]
    rw [implFor, h3]
    simp only [hnz 3, if_false, show (3 : Nat) ≥ 3 by decide, if_true]
  · intro mr a
    have := implFor_calls_le a (mr + 1) (List.range' 1 (mr + 1))
    rw [runImpl]
    calc (implFor a (mr + 1) (List.range' 1 (mr + 1))).1
        ≤ (List.range' 1 (mr + 1)).length := this
      _ = 1 + mr := by rw [List.length_range']; omega

/-- Concrete instantiation of `C3_retry_bound`: every attempt's tests return
status 5. -/
theorem C3_retry_bound_witness :
    runImpl 2 (fun _ => .tested 5) = (3, some 5)
    ∧ (runImpl 7 (fun _ => .noBlock)).1 ≤ 1 + 7 := by
  have h := C3_retry_bound (fun _ => .tested 5) (fun _ => 5)
    rfl rfl rfl (fun _ => (by decide : (5 : Nat) ≠ 0))
  exact ⟨h.1, h.2 7 (fun _ => .noBlock)⟩

/-- Claim C5: whatever the configured retry count, if the first generation
response has no content block tagged with the target module path, the impl
loop makes exactly 1 generation call and aborts with status 1, and
`run_tasks` stops there with status 1 (a non-zero result), never reaching
later tasks. -/
theorem C5_no_block_aborts (mr : Nat) (t : Task) (e : TaskEnv)
    (hk : t.kind = "impl") (h1 : e.attempts 1 = .noBlock) :
    runImpl mr e.attempts = (1, some 1)
    ∧ (∀ rest : List (Task × TaskEnv),
        runTasksFrom mr ((t, e) :: rest) = ([.implAttempted t.target 1], 1))
    ∧ (1 : Nat) ≠ 0 := by
  have himpl : runImpl mr e.attempts = (1, some 1) := by
    rw [runImpl, List.range'_succ, implFor, h1]
  refine ⟨himpl, ?_, by decide⟩
  intro rest
  rw [runTasksFrom]
  simp [hk, himpl]

/-- Concrete instantiation of `C5_no_block_aborts` with 9 configured
retries and an empty tail of tasks. -/
theorem C5_no_block_aborts_witness :
    runImpl 9 ({ attempts := fun _ => .noBlock : TaskEnv }).attempts = (1, some 1)
    ∧ runTasksFrom 9
        [({ id := "impl:greeter", kind := "impl", target := "pkg.greeter" },
          { attempts := fun _ => .noBlock })]
      = ([.implAttempted "pkg.greeter" 1], 1) := by
  have h := C5_no_block_aborts 9
    { id := "impl:greeter", kind := "impl", target := "pkg.greeter" }
    { attempts := fun _ => .noBlock } rfl rfl
  exact ⟨h.1, h.2.1 []⟩

/-- The status with which a task halts `run_tasks`, if any: an impl task
halts when its retry loop returns a status, a test task halts on a non-zero
test status; scaffold, freeze and unknown kinds never halt the run. -/
def fatalStatus (mr : Nat) (te : Task × TaskEnv) : Option Nat :=
  if te.1.kind = "impl" then (runImpl mr te.2.attempts).2
  else if te.1.kind = "test" then
    (if te.2.testRc = 0 then none else some te.2.testRc)
  else none

/-- The run either finishes with status 0 having met no fatal task, or it
stops at the first fatal task and returns that task's (non-zero) status. -/
def HaltsAtFirstFatal (mr : Nat) (l : List (Task × TaskEnv)) : Prop :=
  ((∀ te ∈ l, fatalStatus mr te = none) ∧ (runTasksFrom mr l).2 = 0)
  ∨ (∃ l1 te l2, l = l1 ++ te :: l2
      ∧ (∀ u ∈ l1, fatalStatus mr u = none)
      ∧ ∃ s, fatalStatus mr te = some s ∧ s ≠ 0 ∧ (runTasksFrom mr l).2 = s)

lemma haltsAtFirstFatal_cons (mr : Nat) (t : Task) (e : TaskEnv)
    (rest : List (Task × TaskEnv))
    (hfs : fatalStatus mr (t, e) = none)
    (hrun : (runTasksFrom mr ((t, e) :: rest)).2 = (runTasksFrom mr rest).2)
    (ih : HaltsAtFirstFatal mr rest) :
    HaltsAtFirstFatal mr ((t, e) :: rest) := by
  rcases ih with ⟨hall, h0⟩ | ⟨l1, u, l2, heq, hnf, s, hfat, hsnz, hres⟩
  · refine Or.inl ⟨?_, by rw [hrun]; exact h0⟩
    intro x hx
    rcases List.mem_cons.mp hx with rfl | hx'
    · exact hfs
    · exact hall x hx'
  · refine Or.inr ⟨(t, e) :: l1, u, l2, by rw [heq, List.cons_append], ?_,
      s, hfat, hsnz, by rw [hrun]; exact hres⟩
    intro x hx
    rcases List.mem_cons.mp hx with rfl | hx'
    · exact hfs
    · exact hnf x hx'

/-- Claim C6, amended: `run_tasks` halts at the first fatal failure — an
impl task whose retry loop aborts (exhaustion or missing content block) or a
test task's non-zero status — and returns that failure's status; otherwise
it returns 0 after the last task. Unknown kinds are logged and skipped, and
— amending the claim — the freeze invocation's status is discarded as well,
so a freeze hard failure is never fatal. -/
theorem C6_first_fatal (mr : Nat) (l : List (Task × TaskEnv)) :
    HaltsAtFirstFatal mr l := by
  induction l with
  | nil => exact Or.inl ⟨by simp, rfl⟩
  | cons te rest ih =>
    rcases te with ⟨t, e⟩
    by_cases hsc : t.kind = "scaffold"
    · refine haltsAtFirstFatal_cons mr t e rest ?_ ?_ ih
      · simp [fatalStatus, hsc]
      · rw [runTasksFrom]
        simp [hsc]
    · by_cases him : t.kind = "impl"
      · rcases hri : runImpl mr e.attempts with ⟨n, res⟩
        cases res with
        | some rc =>
          refine Or.inr ⟨[], (t, e), rest, rfl, by simp, rc, ?_, ?_, ?_⟩
          · simp [fatalStatus, him, hri]
          · refine implFor_snd_ne_zero e.attempts (mr + 1)
              (List.range' 1 (mr + 1)) rc ?_
            have : (runImpl mr e.attempts).2 = some rc := by rw [hri]
            simpa [runImpl] using this
          · rw [runTasksFrom]
            simp [hsc, him, hri]
        | none =>
          refine haltsAtFirstFatal_cons mr t e rest ?_ ?_ ih
          · simp [fatalStatus, him, hri]
          · rw [runTasksFrom]
            simp [hsc, him, hri]
      · by_cases hte : t.kind = "test"
        · by_cases h0 : e.testRc = 0
          · refine haltsAtFirstFatal_cons mr t e rest ?_ ?_ ih
            · simp [fatalStatus, him, hte, h0]
            · rw [runTasksFrom]
              simp [hsc, him, hte, h0]
          · refine Or.inr ⟨[], (t, e), rest, rfl, by simp, e.testRc, ?_, h0, ?_⟩
            · simp [fatalStatus, him, hte, h0]
            · rw [runTasksFrom]
              simp [hsc, him, hte, h0]
        · by_cases hfr : t.kind = "freeze"
          · refine haltsAtFirstFatal_cons mr t e rest ?_ ?_ ih
            · simp [fatalStatus, him, hte, hfr]
            · rw [runTasksFrom]
              simp [hsc, him, hte, hfr]
          · refine haltsAtFirstFatal_cons mr t e rest ?_ ?_ ih
            · simp [fatalStatus, him, hte]
            · rw [runTasksFrom]
              simp [hsc, him, hte, hfr]

/-- A freeze task whose `oracle.py --update-apis` invocation is used for the
counterexample: the gate names ride in its detail, and its subprocess status
is 2 (a hard failure). -/
def exFreezeTask : Task :=
  { id := "freeze:checkpoint", kind := "freeze", target := "apis",
    detail := .gates ["lint"] }

/-- Claim C6, counterexample: the freeze invocation hard-fails with status 2
(recorded in the trace), yet the engine continues and the run returns 0, not
2 — a gate invocation's hard failure is not halted on, contradicting the
claim's list of fatal failures. -/
theorem C6_freeze_failure_counterexample :
    runTasksFrom 2 [(exFreezeTask, { freezeRc := 2 })] = ([.updateApis 2], 0)
    ∧ (runTasksFrom 2 [(exFreezeTask, { freezeRc := 2 })]).2 ≠ 2 := by
  have h : runTasksFrom 2 [(exFreezeTask, { freezeRc := 2 })]
      = ([.updateApis 2], 0) := rfl
  exact ⟨h, by rw [h]; decide⟩

/-! ## Oracle: `tools/oracle.py`

API discovery scans each `.py` file with the multiline regex
`^def\s+([a-zA-Z_][\w]*)\s*\(([^)]*)\):`. We embed the regex's matching
semantics directly: `^` (with `re.M`) anchors at the start of the text or
right after a newline; `\s+`/`\s*` are greedy whitespace runs; the
identifier is a greedy `[a-zA-Z_][\w]*` run; `([^)]*)` greedily takes every
character up to the first `)` (newlines included, since a negated class
matches them); and the match requires `):` immediately after. Since the
character classes of adjacent greedy pieces are disjoint, maximal munch is
exact — no backtracking can produce another match at the same start. As in
`re.finditer`, scanning resumes after the end of a match. -/

/-- ASCII whitespace recognized by the regex class `\s`. -/
def isWsChar (c : Char) : Bool :=
  c == ' ' || c == '\t' || c == '\n' || c == '\r' || c == '\x0b' || c == '\x0c'

/-- First character of `[a-zA-Z_][\w]*`. -/
def isIdentStartChar (c : Char) : Bool :=
  ('a' ≤ c && c ≤ 'z') || ('A' ≤ c && c ≤ 'Z') || c == '_'

/-- Continuation character class `\w`. -/
def isIdentChar (c : Char) : Bool :=
  isIdentStartChar c || ('0' ≤ c && c ≤ '9')

/-- Attempts to match `def\s+NAME\s*\(PARAMS):` at the head of `l` (a
line-start position). On success returns the name, the captured parameter
characters, and the remaining text after the match. -/
def matchDefAt : List Char → Option (List Char × List Char × List Char)
  | 'd' :: 'e' :: 'f' :: r0 =>
    let ws := r0.takeWhile isWsChar
    let r1 := r0.dropWhile isWsChar
    if ws.isEmpty then none
    else
      match r1 with
      | c :: r2 =>
        if isIdentStartChar c then
          let ident := r2.takeWhile isIdentChar
          let r3 := r2.dropWhile isIdentChar
          let r4 := r3.dropWhile isWsChar
          match r4 with
          | '(' :: r5 =>
            let params := r5.takeWhile fun d => !(d == ')')
            let r6 := r5.dropWhile fun d => !(d == ')')
            match r6 with
            | ')' :: ':' :: r7 => some (c :: ident, params, r7)
            | _ => none
          | _ => none
        else none
      | [] => none
  | _ => none

/-- Scan of `re.finditer` over the text: at each line-start position try the
pattern; on a match emit `name(params)` and resume after the match,
otherwise advance one character. `fuel` bounds the recursion; every step
consumes at least one character, so `length + 1` fuel never runs out. -/
def findDefsF : Nat → List Char → Bool → List String
  | 0, _, _ => []
  | _ + 1, [], _ => []
  | fuel + 1, c :: cs, atStart =>
    if atStart then
      match matchDefAt (c :: cs) with
      | some (nm, ps, r7) =>
        (String.mk nm ++ "(" ++ String.mk ps ++ ")") :: findDefsF fuel r7 false
      | none => findDefsF fuel cs (c == '\n')
    else findDefsF fuel cs (c == '\n')

/-- All `name(params)` signature strings the regex finds in one file's text
(`discover_public_apis`, lines 54-57; match order, not yet sorted). -/
def findDefs (text : List Char) : List String :=
  findDefsF (text.length + 1) text true

example : findDefs ("def foo(a, b):\n    pass\n".data) = ["foo(a, b)"] := by
  decide

example : findDefs ("def foo(a) -> int:\n    pass\n".data) = [] := by decide

example : findDefs ("x = 1\n  def foo(a):\n".data) = [] := by decide

/-- Lexicographic code-point comparison of character lists; this is the
string order Python's `sorted` and `json.dumps(..., sort_keys=True)` use. -/
def charListLe : List Char → List Char → Bool
  | [], _ => true
  | _ :: _, [] => false
  | a :: as, b :: bs =>
    if a.toNat < b.toNat then true
    else if a.toNat = b.toNat then charListLe as bs
    else false

/-- String order used for every `sorted(...)` / `sort_keys=True` call. -/
def strLe (a b : String) : Prop := charListLe a.data b.data = true

instance : DecidableRel strLe := fun a b =>
  inferInstanceAs (Decidable (charListLe a.data b.data = true))

/-- Embedding of Python `sorted` on a list of strings. -/
def sortedStrings (l : List String) : List String := List.insertionSort strLe l

/-- Key order on `(module, signatures)` entries (`sort_keys=True`). -/
def keyLe (p q : String × List String) : Prop := strLe p.1 q.1

instance : DecidableRel keyLe := fun p q =>
  inferInstanceAs (Decidable (strLe p.1 q.1))

/-- Serialization order of a fingerprint dict: entries sorted by module key,
as `json.dumps(apis, indent=2, sort_keys=True)` emits them. The rendered
bytes are a deterministic function of this entry list. -/
def sortByKey (l : List (String × List String)) : List (String × List String) :=
  List.insertionSort keyLe l

/-- A source file below `src_dir`, as `rglob("*.py")` yields it: its path
components relative to the repository root, and its text. -/
structure SrcFile where
  parts : List String
  text : List Char
deriving DecidableEq

/-- Python's `str.removesuffix`. -/
def removesuffix (s suf : String) : String :=
  if suf.data.isSuffixOf s.data then
    String.mk (s.data.take (s.data.length - suf.data.length))
  else s

/-- `str(rel).replace(os.sep, ".").removesuffix(".py")` for a relative path
given by its components. -/
def moduleOf (f : SrcFile) : String :=
  removesuffix (String.intercalate "." f.parts) ".py"

example : moduleOf ⟨["pkg", "m.py"], []⟩ = "pkg.m" := by decide

/-- Python dict assignment `apis[module] = v` on an insertion-ordered
association list. -/
def dictInsert (l : List (String × List String)) (k : String)
    (v : List String) : List (String × List String) :=
  match l with
  | [] => [(k, v)]
  | (k', v') :: rest =>
    if k' = k then (k, v) :: rest else (k', v') :: dictInsert rest k v

/-- Loop body of `discover_public_apis`: a file whose text yields no match
is skipped (`if funcs:`), otherwise `apis[module] = sorted(funcs)`. -/
def discoverStep (apis : List (String × List String)) (f : SrcFile) :
    List (String × List String) :=
  let funcs := findDefs f.text
  if funcs.isEmpty then apis
  else dictInsert apis (moduleOf f) (sortedStrings funcs)

/-- Embedding of `discover_public_apis` (`tools/oracle.py`, lines 43-60):
the files are presented in filesystem traversal order. -/
def discover_public_apis (files : List SrcFile) : List (String × List String) :=
  files.foldl discoverStep []

/-- The canonical fingerprint content written by `write_fingerprint`:
the discovered mapping with entries in sorted-key order. -/
def fingerprintData (files : List SrcFile) : List (String × List String) :=
  sortByKey (discover_public_apis files)

/-- The `lines` list built by `write_public_api_doc` (lines 62-69). -/
def publicApiDocLines (apis : List (String × List String)) : List String :=
  "# Public Python APIs\n"
    :: (sortByKey apis).flatMap fun p =>
         ("\n## " ++ p.1 ++ "\n") :: p.2.map fun f => "- `" ++ f ++ "`"

/-- The markdown text written to the public-API doc. -/
def publicApiDocText (apis : List (String × List String)) : String :=
  String.intercalate "\n" (publicApiDocLines apis)

/-- The slice of the Charter the oracle's freeze path reads, plus `gateRc`:
the status each configured gate step's command would return if (re-)run
through `run_plan` — the `--update-apis` code path never invokes it. -/
structure OCharter where
  progressive : Bool := false
  freezeAfter : List String := []
  gateRc : String → Nat := fun _ => 0
  publicApiDoc : String := "docs/PUBLIC_APIS.md"
  apiFingerprintFile : String := ".charter/api_fingerprint.json"
  files : List SrcFile := []

/-- Observable effects of the oracle process: executing a gate step's shell
command, and writing the API doc / fingerprint files. -/
inductive OEvent where
  | ranStep (name : String) (rc : Nat) : OEvent
  | wroteDoc (path : String) (text : String) : OEvent
  | wroteFingerprint (path : String)
      (entries : List (String × List String)) : OEvent
deriving DecidableEq

/-- Embedding of `progressive_freeze` (`tools/oracle.py`, lines 115-129):
if the governance flag is off, nothing happens; otherwise the source tree is
scanned and the doc and fingerprint are written, in that order. -/
def progressive_freeze (ch : OCharter) : List OEvent :=
  if ch.progressive = false then []
  else
    let apis := discover_public_apis ch.files
    [ .wroteDoc ch.publicApiDoc (publicApiDocText apis),
      .wroteFingerprint ch.apiFingerprintFile (sortByKey apis) ]

/-- Embedding of `main` under `--update-apis` (`tools/oracle.py`, lines
143-145), the path `run_tasks` uses for a freeze task: it calls
`progressive_freeze(charter)` and returns 0. -/
def oracleUpdateApis (ch : OCharter) : List OEvent × Nat :=
  (progressive_freeze ch, 0)

/-- Snapshot writes (API doc or fingerprint). -/
def isSnapshotWrite : OEvent → Bool
  | .wroteDoc _ _ => true
  | .wroteFingerprint _ _ => true
  | .ranStep _ _ => false

/-- Gate (step command) executions. -/
def isGateRun : OEvent → Bool
  | .ranStep _ _ => true
  | _ => false

/-- Claim C7: with `progressive_freeze = false` the freeze-task invocation
of the oracle writes nothing at all — neither the API doc nor the
fingerprint file — and exits with status 0 (success). -/
theorem C7_freeze_disabled (ch : OCharter) (h : ch.progressive = false) :
    oracleUpdateApis ch = ([], 0) := by
  simp [oracleUpdateApis, progressive_freeze, h]

/-- Concrete instantiation of `C7_freeze_disabled`. -/
theorem C7_freeze_disabled_witness :
    oracleUpdateApis { progressive := false, freezeAfter := ["lint"] } = ([], 0) :=
  C7_freeze_disabled { progressive := false, freezeAfter := ["lint"] } rfl

/-- Claim C2, amended: with `progressive_freeze` enabled, executing the
freeze task (`oracle.py --update-apis`) writes the API doc and the
fingerprint unconditionally and exits 0; the gate names attached to the
freeze task are never re-executed on this code path (the trace contains no
gate run, and the output is unchanged under any gate statuses). -/
theorem C2_freeze_gates_amended (ch : OCharter) (h : ch.progressive = true) :
    oracleUpdateApis ch =
      ([ .wroteDoc ch.publicApiDoc
           (publicApiDocText (discover_public_apis ch.files)),
         .wroteFingerprint ch.apiFingerprintFile
           (sortByKey (discover_public_apis ch.files)) ], 0)
    ∧ (∀ ev ∈ (oracleUpdateApis ch).1, isGateRun ev = false)
    ∧ ∀ g : String → Nat,
        oracleUpdateApis { ch with gateRc := g } = oracleUpdateApis ch := by
  refine ⟨?_, ?_, ?_⟩
  · simp [oracleUpdateApis, progressive_freeze, h]
  · intro ev hev
    simp only [oracleUpdateApis, progressive_freeze, h] at hev
    simp at hev
    rcases hev with rfl | rfl <;> rfl
  · intro g
    rfl

/-- Example oracle charter for the C2 counterexample: the freeze flag is
on, the configured `freeze_after` gate `lint` would fail if re-run
(`gateRc "lint" = 1`), and one source file is present. -/
def exOch : OCharter :=
  { progressive := true
    freezeAfter := ["lint"]
    gateRc := fun _ => 1
    files := [⟨["pkg", "util.py"], "def ping(host):\n    return 0\n".data⟩] }

/-- Claim C2, counterexample: a gate is attached to the freeze and would
fail when re-run, yet executing the freeze path performs the snapshot
writes and executes no gate at all — contradicting both "each gate is
re-executed fresh before any snapshot write" and "written if and only if
every gate passes". -/
theorem C2_freeze_gates_counterexample :
    exOch.progressive = true
    ∧ "lint" ∈ exOch.freezeAfter
    ∧ exOch.gateRc "lint" ≠ 0
    ∧ ((oracleUpdateApis exOch).1.any isSnapshotWrite) = true
    ∧ ((oracleUpdateApis exOch).1.any isGateRun) = false := by
  refine ⟨rfl, by decide, by decide, by decide, by decide⟩

/-- Concrete instantiation of `C2_freeze_gates_amended` at `exOch`. -/
theorem C2_freeze_gates_amended_witness :
    oracleUpdateApis exOch =
      ([ .wroteDoc exOch.publicApiDoc
           (publicApiDocText (discover_public_apis exOch.files)),
         .wroteFingerprint exOch.apiFingerprintFile
           (sortByKey (discover_public_apis exOch.files)) ], 0)
    ∧ oracleUpdateApis { exOch with gateRc := fun _ => 0 }
        = oracleUpdateApis exOch := by
  have h := C2_freeze_gates_amended exOch rfl
  exact ⟨h.1, h.2.2 (fun _ => 0)⟩

lemma char_toNat_inj {a b : Char} (h : a.toNat = b.toNat) : a = b := by
  apply Char.ext
  apply UInt32.ext
  simpa [Char.toNat, UInt32.toNat] using h

lemma charListLe_total : ∀ as bs : List Char,
    charListLe as bs = true ∨ charListLe bs as = true := by
  intro as
  induction as with
  | nil => intro bs; exact Or.inl rfl
  | cons a as ih =>
    intro bs
    cases bs with
    | nil => exact Or.inr rfl
    | cons b bs =>
      rcases Nat.lt_trichotomy a.toNat b.toNat with h | h | h
      · left
        simp [charListLe, h]
      · rcases ih bs with h' | h'
        · left
          simp [charListLe, h, h']
        · right
          simp [charListLe, h.symm, h']
      · right
        simp [charListLe, h]

lemma charListLe_trans : ∀ as bs cs : List Char,
    charListLe as bs = true → charListLe bs cs = true →
    charListLe as cs = true := by
  intro as
  induction as with
  | nil => intro bs cs _ _; rfl
  | cons a as ih =>
    intro bs cs h1 h2
    cases bs with
    | nil => simp [charListLe] at h1
    | cons b bs =>
      cases cs with
      | nil => simp [charListLe] at h2
      | cons c cs =>
        rw [charListLe] at h1 h2 ⊢
        by_cases hab : a.toNat < b.toNat
        · by_cases hbc : b.toNat < c.toNat
          · simp [Nat.lt_trans hab hbc]
          · by_cases hbc2 : b.toNat = c.toNat
            · simp [show a.toNat < c.toNat from hbc2 ▸ hab]
            · simp [hbc, hbc2] at h2
        · by_cases hab2 : a.toNat = b.toNat
          · have h1' : charListLe as bs = true := by
              simpa [hab, hab2] using h1
            by_cases hbc : b.toNat < c.toNat
            · simp [show a.toNat < c.toNat from hab2 ▸ hbc]
            · by_cases hbc2 : b.toNat = c.toNat
              · have h2' : charListLe bs cs = true := by
                  simpa [hbc, hbc2] using h2
                have hac : a.toNat = c.toNat := hab2.trans hbc2
                have hnlt : ¬ a.toNat < c.toNat := by omega
                simp [hnlt, hac, ih bs cs h1' h2']
              · simp [hbc, hbc2] at h2
          · simp [hab, hab2] at h1

lemma charListLe_antisymm : ∀ as bs : List Char,
    charListLe as bs = true → charListLe bs as = true → as = bs := by
  intro as
  induction as with
  | nil =>
    intro bs _ h2
    cases bs with
    | nil => rfl
    | cons b bs => simp [charListLe] at h2
  | cons a as ih =>
    intro bs h1 h2
    cases bs with
    | nil => simp [charListLe] at h1
    | cons b bs =>
      rw [charListLe] at h1 h2
      by_cases hab : a.toNat < b.toNat
      · have hba : ¬ b.toNat < a.toNat := by omega
        have hba2 : ¬ b.toNat = a.toNat := by omega
        simp [hba, hba2] at h2
      · by_cases hab2 : a.toNat = b.toNat
        · have h1' : charListLe as bs = true := by simpa [hab, hab2] using h1
          have hba : ¬ b.toNat < a.toNat := by omega
          have h2' : charListLe bs as = true := by
            simpa [hba, hab2.symm] using h2
          rw [char_toNat_inj hab2, ih bs h1' h2']
        · simp [hab, hab2] at h1

lemma strLe_total (a b : String) : strLe a b ∨ strLe b a :=
  charListLe_total a.data b.data

lemma strLe_trans {a b c : String} (h1 : strLe a b) (h2 : strLe b c) :
    strLe a c :=
  charListLe_trans a.data b.data c.data h1 h2

lemma strLe_antisymm {a b : String} (h1 : strLe a b) (h2 : strLe b a) :
    a = b :=
  str_data_inj (charListLe_antisymm a.data b.data h1 h2)

instance : IsTotal String strLe := ⟨strLe_total⟩

instance : IsTrans String strLe := ⟨fun _ _ _ => strLe_trans⟩

instance : IsTotal (String × List String) keyLe := ⟨fun p q => strLe_total p.1 q.1⟩

instance : IsTrans (String × List String) keyLe := ⟨fun _ _ _ => strLe_trans⟩

/-- Strict key order: used only to show that key-sorted lists with distinct
keys are equal when they are permutations of each other. -/
def keyLt (p q : String × List String) : Prop := keyLe p q ∧ p.1 ≠ q.1

instance : IsAntisymm (String × List String) keyLt :=
  ⟨fun _ _ h1 h2 => (h1.2 (strLe_antisymm h1.1 h2.1)).elim⟩

lemma sortByKey_eq_of_perm {l1 l2 : List (String × List String)}
    (hperm : l1.Perm l2) (hnd : (l1.map Prod.fst).Nodup) :
    sortByKey l1 = sortByKey l2 := by
  have hp1 : (sortByKey l1).Perm l1 := List.perm_insertionSort keyLe l1
  have hp2 : (sortByKey l2).Perm l2 := List.perm_insertionSort keyLe l2
  have hperm' : (sortByKey l1).Perm (sortByKey l2) :=
    hp1.trans (hperm.trans hp2.symm)
  have hnd2 : (l2.map Prod.fst).Nodup := (hperm.map Prod.fst).nodup hnd
  have hnd1' : ((sortByKey l1).map Prod.fst).Nodup :=
    ((hp1.map Prod.fst).symm).nodup hnd
  have hnd2' : ((sortByKey l2).map Prod.fst).Nodup :=
    ((hp2.map Prod.fst).symm).nodup hnd2
  have hlt1 : List.Sorted keyLt (sortByKey l1) :=
    (List.sorted_insertionSort keyLe l1).and (List.pairwise_map.mp hnd1')
  have hlt2 : List.Sorted keyLt (sortByKey l2) :=
    (List.sorted_insertionSort keyLe l2).and (List.pairwise_map.mp hnd2')
  exact List.eq_of_perm_of_sorted hperm' hlt1 hlt2

/-- Whether `discover_public_apis` keeps a file (`if funcs:`). -/
def hasFuncs (f : SrcFile) : Bool := !(findDefs f.text).isEmpty

/-- The dict entry a kept file contributes. -/
def fileEntry (f : SrcFile) : String × List String :=
  (moduleOf f, sortedStrings (findDefs f.text))

lemma dictInsert_not_mem :
    ∀ (l : List (String × List String)) (k : String) (v : List String),
      k ∉ l.map Prod.fst → dictInsert l k v = l ++ [(k, v)] := by
  intro l
  induction l with
  | nil => intro k v _; rfl
  | cons p rest ih =>
    intro k v hk
    rw [List.map_cons, List.mem_cons] at hk
    push_neg at hk
    rcases p with ⟨k', v'⟩
    rw [dictInsert]
    simp only [show ¬ k' = k from fun h => hk.1 h.symm, if_false,
      List.cons_append]
    rw [ih k v hk.2]

lemma discover_aux :
    ∀ (files : List SrcFile) (acc : List (String × List String)),
      ((files.filter hasFuncs).map moduleOf).Nodup →
      (∀ f ∈ files, hasFuncs f = true → moduleOf f ∉ acc.map Prod.fst) →
      files.foldl discoverStep acc = acc ++ (files.filter hasFuncs).map fileEntry := by
  intro files
  induction files with
  | nil => intro acc _ _; simp
  | cons f fs ih =>
    intro acc hnd hdisj
    by_cases hf : hasFuncs f = true
    · have hstep : discoverStep acc f = acc ++ [fileEntry f] := by
        have hne : (findDefs f.text).isEmpty = false := by
          rw [hasFuncs] at hf
          revert hf
          cases (findDefs f.text).isEmpty <;> simp
        rw [discoverStep]
        simp only [hne, Bool.false_eq_true, if_false]
        exact dictInsert_not_mem acc (moduleOf f) _
          (hdisj f (List.mem_cons_self f fs) hf)
      rw [List.filter_cons_of_pos hf] at hnd ⊢
      rw [List.map_cons, List.nodup_cons] at hnd
      rw [List.foldl_cons, hstep]
      rw [ih (acc ++ [fileEntry f]) hnd.2 ?_]
      · rw [List.map_cons, List.append_assoc]
        rfl
      · intro g hg hgf
        rw [List.map_append]
        intro hmem
        rcases List.mem_append.mp hmem with hacc | hsing
        · exact hdisj g (List.mem_cons_of_mem f hg) hgf hacc
        · have : moduleOf g = moduleOf f := by
            simpa [fileEntry] using hsing
          refine hnd.1 ?_
          rw [← this]
          exact List.mem_map_of_mem moduleOf
            (List.mem_filter.mpr ⟨hg, hgf⟩)
    · have hf' : hasFuncs f = false := by
        revert hf; cases hasFuncs f <;> simp
      have hstep : discoverStep acc f = acc := by
        have hemp : (findDefs f.text).isEmpty = true := by
          rw [hasFuncs] at hf'
          revert hf'
          cases (findDefs f.text).isEmpty <;> simp
        rw [discoverStep]
        simp [hemp]
      rw [List.filter_cons_of_neg (by simp [hf'])] at hnd ⊢
      rw [List.foldl_cons, hstep]
      exact ih acc hnd fun g hg => hdisj g (List.mem_cons_of_mem f hg)

lemma discover_eq_entries (files : List SrcFile)
    (hnd : (files.map moduleOf).Nodup) :
    discover_public_apis files = (files.filter hasFuncs).map fileEntry := by
  have hnd' : ((files.filter hasFuncs).map moduleOf).Nodup :=
    ((List.filter_sublist files).map moduleOf).nodup hnd
  rw [discover_public_apis, discover_aux files [] hnd' (by simp)]
  rfl

/-- Claim C8: the fingerprint is deterministic and order-independent — for
a fixed set of source files (with, as in a Python package tree, pairwise
distinct module names), any permutation of the traversal order produces the
identical sorted-key fingerprint entry list, hence byte-identical
`json.dumps(..., sort_keys=True)` output; and every module's signature list
is sorted. -/
theorem C8_fingerprint_deterministic (files files' : List SrcFile)
    (hperm : files.Perm files') (hnd : (files.map moduleOf).Nodup) :
    fingerprintData files = fingerprintData files'
    ∧ ∀ p ∈ fingerprintData files, List.Sorted strLe p.2 := by
  have hnd2 : (files'.map moduleOf).Nodup := (hperm.map moduleOf).nodup hnd
  have he1 := discover_eq_entries files hnd
  have he2 := discover_eq_entries files' hnd2
  constructor
  · rw [fingerprintData, fingerprintData, he1, he2]
    refine sortByKey_eq_of_perm ((hperm.filter hasFuncs).map fileEntry) ?_
    rw [List.map_map]
    exact ((List.filter_sublist files).map (Prod.fst ∘ fileEntry)).nodup
      (by simpa [Function.comp, fileEntry] using hnd)
  · intro p hp
    have hp' : p ∈ discover_public_apis files :=
      (List.perm_insertionSort keyLe _).mem_iff.mp hp
    rw [he1] at hp'
    rcases List.mem_map.mp hp' with ⟨f, _, rfl⟩
    exact List.sorted_insertionSort strLe _

/-- Concrete instantiation of `C8_fingerprint_deterministic`: two files,
traversed in either order, give the same fingerprint entries. -/
theorem C8_fingerprint_deterministic_witness :
    fingerprintData
        [⟨["a.py"], "def f(x):\n".data⟩, ⟨["b.py"], "def g(y):\n".data⟩]
      = fingerprintData
        [⟨["b.py"], "def g(y):\n".data⟩, ⟨["a.py"], "def f(x):\n".data⟩] :=
  (C8_fingerprint_deterministic _ _
    (List.Perm.swap ⟨["b.py"], "def g(y):\n".data⟩
      ⟨["a.py"], "def f(x):\n".data⟩ [])
    (by decide)).1

lemma mem_keys_dictInsert :
    ∀ (l : List (String × List String)) (k : String) (v : List String)
      (m : String),
      m ∈ (dictInsert l k v).map Prod.fst ↔ m = k ∨ m ∈ l.map Prod.fst := by
  intro l
  induction l with
  | nil =>
    intro k v m
    simp [dictInsert]
  | cons p rest ih =>
    intro k v m
    rcases p with ⟨k', v'⟩
    rw [dictInsert]
    by_cases hk : k' = k
    · subst hk
      rw [if_pos rfl]
      simp only [List.map_cons, List.mem_cons]
      tauto
    · simp only [if_neg hk, List.map_cons, List.mem_cons, ih]
      tauto

lemma discover_keys_aux :
    ∀ (files : List SrcFile) (acc : List (String × List String)) (m : String),
      m ∈ (files.foldl discoverStep acc).map Prod.fst
        ↔ m ∈ acc.map Prod.fst
          ∨ ∃ f ∈ files, moduleOf f = m ∧ findDefs f.text ≠ [] := by
  intro files
  induction files with
  | nil =>
    intro acc m
    simp
  | cons f fs ih =>
    intro acc m
    rw [List.foldl_cons, ih]
    by_cases hf : (findDefs f.text).isEmpty = true
    · have hemp : findDefs f.text = [] := List.isEmpty_iff.mp hf
      have hstep : discoverStep acc f = acc := by
        rw [discoverStep]
        simp [hf]
      rw [hstep]
      constructor
      · rintro (hacc | ⟨g, hg, hgm, hgne⟩)
        · exact Or.inl hacc
        · exact Or.inr ⟨g, List.mem_cons_of_mem f hg, hgm, hgne⟩
      · rintro (hacc | ⟨g, hg, hgm, hgne⟩)
        · exact Or.inl hacc
        · rcases List.mem_cons.mp hg with rfl | hg'
          · exact absurd hemp hgne
          · exact Or.inr ⟨g, hg', hgm, hgne⟩
    · have hne : findDefs f.text ≠ [] := by
        intro h
        exact hf (List.isEmpty_iff.mpr h)
      have hstep : discoverStep acc f
          = dictInsert acc (moduleOf f) (sortedStrings (findDefs f.text)) := by
        rw [discoverStep]
        simp [hf]
      rw [hstep, mem_keys_dictInsert]
      constructor
      · rintro ((rfl | hacc) | ⟨g, hg, hgm, hgne⟩)
        · exact Or.inr ⟨f, List.mem_cons_self f fs, rfl, hne⟩
        · exact Or.inl hacc
        · exact Or.inr ⟨g, List.mem_cons_of_mem f hg, hgm, hgne⟩
      · rintro (hacc | ⟨g, hg, hgm, hgne⟩)
        · exact Or.inl (Or.inr hacc)
        · rcases List.mem_cons.mp hg with rfl | hg'
          · exact Or.inl (Or.inl hgm.symm)
          · exact Or.inr ⟨g, hg', hgm, hgne⟩

/-- Claim C10, amended: a module appears in the discovered mapping (hence
in the fingerprint and the API doc) if and only if some source file with
that module name contains at least one top-level match of
`^def\s+name\s*\(([^)]*)\):` — that is, a `def` at the start of a line
whose parameter text contains no `)` and whose closing parenthesis is
immediately followed by `:`. The parameter list may span several lines
(the negated character class matches newlines); "single-line definitions
only" is what the original claim wrongly adds. -/
theorem C10_module_presence (files : List SrcFile) (m : String) :
    m ∈ (discover_public_apis files).map Prod.fst
      ↔ ∃ f ∈ files, moduleOf f = m ∧ findDefs f.text ≠ [] := by
  rw [discover_public_apis, discover_keys_aux]
  simp

/-- Lines of a text, split on newline characters. -/
def splitLines : List Char → List (List Char)
  | [] => [[]]
  | c :: cs =>
    let r := splitLines cs
    if c = '\n' then [] :: r
    else
      match r with
      | [] => [[c]]
      | h :: t => (c :: h) :: t

/-- The original claim's inclusion criterion: some single line of the file
is, from its start, a complete `def name(params):` match (so the whole
match, parameters included, sits on one line). -/
def hasSingleLineDef (text : List Char) : Bool :=
  (splitLines text).any fun line => (matchDefAt line).isSome

/-- A file whose only function has a multi-line parameter list. -/
def mlFile : SrcFile :=
  ⟨["pkg", "m.py"], "def foo(\n    x\n):\n    pass".data⟩

/-- Claim C10, counterexample: `mlFile` contains no single-line
`def name(params):` match, yet discovery includes its module `pkg.m` with
the multi-line signature — the regex accepts parameter lists spanning
lines, so "is entirely absent from the fingerprint mapping" fails. -/
theorem C10_single_line_counterexample :
    hasSingleLineDef mlFile.text = false
    ∧ (discover_public_apis [mlFile]).map Prod.fst = ["pkg.m"]
    ∧ findDefs mlFile.text = ["foo(\n    x\n)"] := by
  refine ⟨by decide, by decide, by decide⟩

end Spec2Proof
